import Mathlib

/-!
Verification development for the post-seminar lead-conversion agent
(`src/agents/lead_agent.py`, `src/services/calendar_service.py`,
`src/database/database.py`).  The Python functions with decision logic are
shallowly embedded as executable Lean definitions; times are modelled in
minutes as natural numbers, external collaborators (the Google calendar,
the WhatsApp transport, the LLM) appear as explicit parameters describing
their observable outcome.
-/

namespace SeminarAgent

/-! ### Scheduling Coordinator (`LeadAgent._handle_time_selection`, lead_agent.py:579-659) -/

/-- A candidate slot as produced by `get_available_slots` and persisted in the
`available_slots:` system turn.  Only the fields read by
`_handle_time_selection` / `_schedule_meeting` are kept: `start` (a
`datetime`, modelled in minutes) and the human-readable `datetime_str`. -/
structure SlotS where
  start : Nat
  datetimeStr : String
deriving DecidableEq

/-- A row of the `calendar_events` table as written by
`DatabaseManager.save_calendar_event` (database.py:185-204).  The table has no
uniqueness constraint on (lead, start_time) (database/models.py:73-84). -/
structure CalEvent where
  phone : String
  googleEventId : String
  title : String
  startTime : Nat
  endTime : Nat
  attendeeEmail : Option String
deriving DecidableEq

/-- `DatabaseManager.save_calendar_event` (database.py:185-204): a plain
`session.add` insert of a new row; no duplicate detection of any kind. -/
def save_calendar_event (store : List CalEvent) (e : CalEvent) : List CalEvent :=
  store ++ [e]

/-- Observable outcome of one `_handle_time_selection` call: the WhatsApp text
sent to the user, whether `_schedule_meeting` invoked the external booking
capability, the `CalendarEvent` row saved (if any), the
`update_lead_status` performed (if any), and the Python return string. -/
structure TimeSelResult where
  reply : String
  bookingAttempted : Bool
  savedEvent : Option CalEvent
  statusUpdate : Option String
  ret : String
deriving DecidableEq

/-- `LeadAgent._schedule_meeting` (lead_agent.py:628-659).  `bookResult`
models the outcome of the external `calendar_service.schedule_lead_meeting`
call: `some eid` is a confirmation carrying the event id, `none` covers both
"no confirmation returned" and a thrown exception (the `except` branch also
yields `False`).  On confirmation the function saves a `CalendarEvent` row
with `end_time = start + 30` minutes and returns it. -/
def schedule_meeting (phone userName : String) (slot : SlotS) (email : Option String)
    (bookResult : Option String) : Option CalEvent :=
  match bookResult with
  | some eid =>
      some { phone := phone, googleEventId := eid, title := "Reunião - " ++ userName,
             startTime := slot.start, endTime := slot.start + 30, attendeeEmail := email }
  | none => none

/-- Python list indexing `l[i]` with negative-index wraparound;
`none` models an `IndexError`. -/
def pyGet (l : List α) (i : Int) : Option α :=
  if 0 ≤ i then l.get? i.toNat
  else if 0 ≤ (l.length : Int) + i then l.get? ((l.length : Int) + i).toNat
  else none

/-- `LeadAgent._handle_time_selection` (lead_agent.py:579-626).
`availableSlots` is the parsed `available_slots:` snapshot found in the
recent history (`none` when no such system turn exists), `savedEmail` the
parsed `email_saved:` turn, and `ordinal` the `N` of the selection code
`horario_N`.  The code computes `slot_index = N - 1`, rejects
`slot_index >= len(available_slots)`, indexes the snapshot with Python
semantics, and delegates to `_schedule_meeting`; an `IndexError` is caught by
the outer `except` handler. -/
def handle_time_selection (availableSlots : Option (List SlotS)) (savedEmail : Option String)
    (ordinal : Nat) (phone userName : String) (bookResult : Option String) : TimeSelResult :=
  match availableSlots with
  | none =>
      { reply := "Deixa eu verificar os horários de novo!", bookingAttempted := false,
        savedEvent := none, statusUpdate := none, ret := "Verificando horários novamente" }
  | some slots =>
      if slots.isEmpty then
        { reply := "Deixa eu verificar os horários de novo!", bookingAttempted := false,
          savedEvent := none, statusUpdate := none, ret := "Verificando horários novamente" }
      else
        let slotIndex : Int := (ordinal : Int) - 1
        if (slots.length : Int) ≤ slotIndex then
          { reply := "Ops, esse horário não está mais disponível.", bookingAttempted := false,
            savedEvent := none, statusUpdate := none, ret := "Horário indisponível" }
        else
          match pyGet slots slotIndex with
          | none =>
              { reply := "Deixa eu organizar isso melhor e já te retorno!",
                bookingAttempted := false, savedEvent := none, statusUpdate := none,
                ret := "Erro ao processar horário" }
          | some sel =>
              match schedule_meeting phone userName sel savedEmail bookResult with
              | some ev =>
                  { reply := "Pronto! ✅\n\nAgendado para " ++ sel.datetimeStr ++
                      ".\nTe enviei o convite por email. Até lá! 😊",
                    bookingAttempted := true, savedEvent := some ev,
                    statusUpdate := some "SCHEDULED", ret := "Reunião agendada com sucesso" }
              | none =>
                  { reply := "Deu um probleminha para agendar. Vou tentar de novo!",
                    bookingAttempted := true, savedEvent := none, statusUpdate := none,
                    ret := "Erro no agendamento" }

/-- Threads the `CalendarEvent` row saved by one handler invocation (if any)
through the persistent event store, exactly as the
`_schedule_meeting` → `save_calendar_event` call chain does. -/
def persistSaved (store : List CalEvent) (r : TimeSelResult) : List CalEvent :=
  match r.savedEvent with
  | some ev => save_calendar_event store ev
  | none => store

/-! ### Chat history retrieval (`DatabaseManager.get_chat_history`, database.py:112-121) -/

/-- A row of the `chat_messages` table restricted to the fields the agent
reads (database/models.py:46-57). -/
structure ChatMsg where
  timestamp : Nat
  role : String
  message : String
deriving DecidableEq

/-- Insertion step of the descending-timestamp sort. -/
def insertDesc (m : ChatMsg) : List ChatMsg → List ChatMsg
  | [] => [m]
  | x :: xs => if x.timestamp ≤ m.timestamp then m :: x :: xs else x :: insertDesc m xs

/-- The SQL `ORDER BY chat_messages.timestamp DESC` of
`get_chat_history`, modelled as an insertion sort by descending timestamp. -/
def orderByTimestampDesc (l : List ChatMsg) : List ChatMsg :=
  l.foldr insertDesc []

/-- `DatabaseManager.get_chat_history` (database.py:112-121): the lead's rows
ordered by `timestamp` descending, limited to `limit`.  `msgs` is the set of
`chat_messages` rows belonging to the lead (the `WHERE lead_id` clause). -/
def get_chat_history (msgs : List ChatMsg) (limit : Nat) : List ChatMsg :=
  (orderByTimestampDesc msgs).take limit

/-- Python suffix slice `l[-n:]` (for `n ≥ 1`), as used by the stage
classifier's `chat_history[-6:]` window (lead_agent.py:311). -/
def lastN (l : List α) (n : Nat) : List α := l.drop (l.length - n)

/-! ### Availability Engine (`CalendarService.get_available_slots`, calendar_service.py:67-144)

Times are minutes from a fixed epoch whose day 0 is a Monday, so a time `t`
lies on day `t / 1440` and `datetime.weekday()` of day `n` is `n % 7`.
Only the time fields of a slot dict are modelled (the `date_str` /
`time_str` / `datetime_str` fields are formatting of `start`). -/

/-- A half-open-ish time interval: a busy calendar event (start/end) or a
produced slot (`start`, `end = start + duration`). -/
structure Interval where
  start : Nat
  stop : Nat
deriving DecidableEq

/-- `business_hours['weekdays']` (calendar_service.py:74-78): Monday–Friday,
Monday = 0 as in Python's `datetime.weekday()`. -/
def businessWeekdays : List Nat := [0, 1, 2, 3, 4]

/-- The `while current_time + duration <= end_time` loop of
`get_available_slots` (calendar_service.py:108-137), in fuel-structural form:
each iteration checks the candidate `[cur, cur + duration)` against every
fetched event with the test `current_time < event_end and slot_end >
event_start` and advances the cursor by the 30-minute grid step.  The fuel
only bounds the iteration count; `genSlots` supplies enough for the loop to
run to its exit condition. -/
def genSlotsFuel (events : List Interval) (stopT duration : Nat) :
    Nat → Nat → List Interval
  | 0, _ => []
  | fuel + 1, cur =>
      if cur + duration ≤ stopT then
        (if events.all
            (fun e => !(decide (cur < e.stop) && decide (cur + duration > e.start))) then
          [⟨cur, cur + duration⟩]
        else []) ++ genSlotsFuel events stopT duration fuel (cur + 30)
      else []

/-- The slot loop for one day with a sufficient fuel bound. -/
def genSlots (cur stopT duration : Nat) (events : List Interval) : List Interval :=
  genSlotsFuel events stopT duration (stopT + 1) cur

/-- The busy intervals the calendar supplier returns for day `n`: the
`events().list` query with `timeMin` = start of day, `timeMax` = 23:59 of
day `n` returns exactly the events intersecting that window
(calendar_service.py:91-102). -/
def eventsForDay (busy : List Interval) (n : Nat) : List Interval :=
  busy.filter (fun b => decide (b.start < n * 1440 + 1439) && decide (n * 1440 < b.stop))

/-- One iteration of the `for day_offset` loop: day `n` contributes slots
between business open (9h = minute 540 of the day) and close (18h = minute
1080) only when its weekday is a business weekday
(calendar_service.py:83-105). -/
def dayBlock (duration : Nat) (busy : List Interval) (n : Nat) : List Interval :=
  if n % 7 ∈ businessWeekdays then
    genSlots (n * 1440 + 540) (n * 1440 + 1080) duration (eventsForDay busy n)
  else []

/-- `CalendarService.get_available_slots` (calendar_service.py:67-144): days
`today + 1 … today + days_ahead`, business weekdays only, slots collected in
day order and capped at 10 (`available_slots[:10]`). -/
def get_available_slots (today daysAhead duration : Nat) (busy : List Interval) :
    List Interval :=
  ((List.range daysAhead).flatMap (fun off => dayBlock duration busy (today + off + 1))).take 10

/-! ### Label Normalizer (`_strip_emoji` / `_normalize`, lead_agent.py:21-29)

Text is a `List Char`.  The Unicode data `_normalize` consumes — the
category test of `_strip_emoji`, `str.lower`, `unicodedata.normalize("NFKD",
·)`, `unicodedata.combining`, and the whitespace classes of `re`'s `\s` and
of `str.strip` — lives outside this repository, so those primitives are
parameters of the embedding (`UnicodeModel`); the idempotence theorem
assumes of them only facts of the real Unicode tables, stated over the
normalizer's output alphabet `[a-z0-9 -:@.]`, and the executable instance
`pyModel` fixes them for the character repertoire of the phrase tables. -/

/-- The class `[a-z]`. -/
def isAsciiLowerAlpha (c : Char) : Bool := decide ('a' ≤ c) && decide (c ≤ 'z')

/-- The class `[0-9]`. -/
def isAsciiDigit (c : Char) : Bool := decide ('0' ≤ c) && decide (c ≤ '9')

/-- The class `[A-Z]`. -/
def isAsciiUpperAlpha (c : Char) : Bool := decide ('A' ≤ c) && decide (c ≤ 'Z')

/-- The class `[a-zA-Z]`. -/
def isAsciiAlpha (c : Char) : Bool := isAsciiLowerAlpha c || isAsciiUpperAlpha c

/-- The four punctuation characters admitted by the keep-class
`[a-z0-9\s\-:@.]` of `_normalize`. -/
def isKeptSymbol (c : Char) : Bool := c == '-' || c == ':' || c == '@' || c == '.'

/-- The keep-class of `re.sub(r"[^a-z0-9\s\-:@.]+", "", s)`
(lead_agent.py:28), parametrised by the `\s` class. -/
def keptChar (spaceRe : Char → Bool) (c : Char) : Bool :=
  isAsciiLowerAlpha c || isAsciiDigit c || spaceRe c || isKeptSymbol c

/-- The normalizer's output alphabet: kept non-space characters plus the
plain space the collapse step produces. -/
def safeChar (c : Char) : Bool :=
  isAsciiLowerAlpha c || isAsciiDigit c || isKeptSymbol c || c == ' '

/-- Scanner of `re.sub(r"\s+", " ", s)` (lead_agent.py:29): `inRun` records
whether the scanner is inside a whitespace run whose single `' '` has
already been emitted. -/
def collapseWSAux (sp : Char → Bool) : Bool → List Char → List Char
  | _, [] => []
  | inRun, c :: cs =>
      if sp c then
        if inRun then collapseWSAux sp true cs else ' ' :: collapseWSAux sp true cs
      else c :: collapseWSAux sp false cs

/-- `re.sub(r"\s+", " ", s)`: every maximal whitespace run becomes one
space. -/
def collapseWS (sp : Char → Bool) (l : List Char) : List Char :=
  collapseWSAux sp false l

/-- Python `str.strip()`: drop leading and trailing whitespace. -/
def stripEnds (sp : Char → Bool) (l : List Char) : List Char :=
  (l.dropWhile sp).rdropWhile sp

/-- The Unicode-dependent primitives consumed by `_strip_emoji` /
`_normalize`: the `unicodedata.category(ch).startswith("So")` test,
`str.lower`, `unicodedata.normalize("NFKD", ·)`, the
`unicodedata.combining(c) != 0` test, the `\s` class of `re`, and the
whitespace class of `str.strip`. -/
structure UnicodeModel where
  catSo : Char → Bool
  lower : List Char → List Char
  nfkd : List Char → List Char
  combining : Char → Bool
  spaceRe : Char → Bool
  spaceStrip : Char → Bool

/-- `_strip_emoji` (lead_agent.py:21-22): drop every character of Unicode
category So. -/
def strip_emoji (U : UnicodeModel) (s : List Char) : List Char :=
  s.filter (fun ch => !(U.catSo ch))

/-- `_normalize` (lead_agent.py:24-29): strip So characters, lowercase, NFKD
decompose, drop combining marks, remove everything outside
`[a-z0-9\s\-:@.]`, collapse whitespace runs to single spaces, strip the
ends. -/
def normalize (U : UnicodeModel) (s : List Char) : List Char :=
  stripEnds U.spaceStrip
    (collapseWS U.spaceRe
      (List.filter (keptChar U.spaceRe)
        (List.filter (fun c => !(U.combining c)) (U.nfkd (U.lower (strip_emoji U s))))))

/-- Facts of the real Unicode tables on the normalizer's output alphabet —
the only assumptions idempotence needs: no safe character has category So,
`str.lower` and NFKD fix strings of safe characters, no safe character is a
combining mark, and `' '` belongs to `\s`. -/
def GoodUnicode (U : UnicodeModel) : Prop :=
  (∀ c, safeChar c = true → U.catSo c = false) ∧
  (∀ l : List Char, (∀ c ∈ l, safeChar c = true) → U.lower l = l) ∧
  (∀ l : List Char, (∀ c ∈ l, safeChar c = true) → U.nfkd l = l) ∧
  (∀ c, safeChar c = true → U.combining c = false) ∧
  U.spaceRe ' ' = true

/-- The Python whitespace class restricted to ASCII; over the characters the
agent's phrase tables use, `\s` of `re` and the default class of
`str.strip` are both exactly this set. -/
def pySpace (c : Char) : Bool :=
  c == ' ' || c == '\t' || c == '\n' || c == '\r' || c == '\x0b' || c == '\x0c'

/-- NFKD decomposition restricted to the phrase-table repertoire: the only
non-ASCII letter in `_BTN_MAP` is `ã`, which decomposes into `a` followed by
the combining tilde U+0303. -/
def pyNFKDChar (c : Char) : List Char :=
  if c = 'ã' then ['a', '̃'] else [c]

/-- Executable instance of the Unicode primitives for the phrase-table
repertoire: none of its characters has category So, `str.lower` acts
character-wise as ASCII case folding, NFKD as `pyNFKDChar`, and the only
combining mark in play is U+0303. -/
def pyModel : UnicodeModel where
  catSo := fun _ => false
  lower := fun l => l.map Char.toLower
  nfkd := fun l => l.flatMap pyNFKDChar
  combining := fun c => c == '̃'
  spaceRe := pySpace
  spaceStrip := pySpace

/-- `_normalize` under the executable Unicode instance. -/
def normalizeC (s : List Char) : List Char := normalize pyModel s

/-- A degenerate Unicode instance (identity case folding and decomposition,
space as the only whitespace) used to exhibit the idempotence theorem at a
concrete input. -/
def idUnicode : UnicodeModel where
  catSo := fun _ => false
  lower := id
  nfkd := id
  combining := fun _ => false
  spaceRe := fun c => c == ' '
  spaceStrip := fun c => c == ' '

/-! ### Intent Mapper (`_BTN_MAP` / `map_label_to_id`, lead_agent.py:37-73) -/

/-- Python's substring test `p in l`. -/
def isSub (p l : List Char) : Bool := l.tails.any (fun t => p.isPrefixOf t)

/-- `_BTN_MAP` (lead_agent.py:37-62), in declaration (= dict iteration)
order. -/
def BTN_MAP : List (String × String) := [
  ("gostei muito", "feedback_positivo"),
  ("amei", "feedback_positivo"),
  ("muito bom", "feedback_positivo"),
  ("gostei", "feedback_bom"),
  ("foi ok", "feedback_neutro"),
  ("ok", "feedback_neutro"),
  ("legal", "feedback_neutro"),
  ("mais ou menos", "feedback_neutro"),
  ("nao gostei", "feedback_negativo"),
  ("não gostei", "feedback_negativo"),
  ("ruim", "feedback_negativo"),
  ("tenho muito interesse", "interesse_alto"),
  ("tenho interesse", "interesse_medio"),
  ("talvez futuramente", "interesse_futuro"),
  ("nao tenho interesse", "sem_interesse"),
  ("não tenho interesse", "sem_interesse"),
  ("sim quero uma reuniao", "aceita_reuniao"),
  ("sim, quero uma reuniao", "aceita_reuniao"),
  ("agendar 15 min", "aceita_reuniao"),
  ("prefiro whatsapp", "prefere_whatsapp"),
  ("falo por whatsapp", "prefere_whatsapp"),
  ("enviem por email", "prefere_email"),
  ("prefiro email", "prefere_email"),
  ("sem tempo agora", "sem_tempo")]

/-- `map_label_to_id` (lead_agent.py:64-73): a falsy (empty) label maps to
no intent; otherwise exact dict lookup on the normalized label, then the
first table entry (declaration order) whose normalized key is contained in
the normalized label or vice versa. -/
def map_label_to_id (label : List Char) : Option String :=
  if label.isEmpty then none
  else
    match BTN_MAP.find? (fun kv => kv.1.toList == normalizeC label) with
    | some kv => some kv.2
    | none =>
        match BTN_MAP.find? (fun kv =>
            isSub (normalizeC kv.1.toList) (normalizeC label) ||
            isSub (normalizeC label) (normalizeC kv.1.toList)) with
        | some kv => some kv.2
        | none => none

/-- A table entry "matches" a normalized string under the mapper's rules:
exact key equality (the dict hit) or bidirectional substring containment of
the normalized key (lead_agent.py:68-72). -/
def entryMatches (np : List Char) (kv : String × String) : Bool :=
  kv.1.toList == np || isSub (normalizeC kv.1.toList) np ||
    isSub np (normalizeC kv.1.toList)

/-! ### Stage Classifier (`_determine_conversation_stage_improved`, lead_agent.py:303-332) -/

/-- One history row as `_get_chat_history_safe` hands it to the classifier:
role and message text. -/
structure Turn where
  role : String
  message : List Char

/-- Character-wise model of Python `str.lower()`. -/
def toLowerStr (l : List Char) : List Char := l.map Char.toLower

/-- Python `" ".join(ms)`. -/
def joinSpace : List (List Char) → List Char
  | [] => []
  | [m] => m
  | m :: ms => m ++ (' ' :: joinSpace ms)

/-- The local-part class `[a-zA-Z0-9._%+-]` of the email regex. -/
def emailLocalChar (c : Char) : Bool :=
  isAsciiAlpha c || isAsciiDigit c || c == '.' || c == '_' || c == '%' ||
    c == '+' || c == '-'

/-- The domain class `[a-zA-Z0-9.-]` of the email regex. -/
def emailDomainChar (c : Char) : Bool :=
  isAsciiAlpha c || isAsciiDigit c || c == '.' || c == '-'

/-- `_is_email` (lead_agent.py:31-34): whether
`^[a-zA-Z0-9._%+-]+@[a-zA-Z0-9.-]+\.[a-zA-Z]{2,}$` fully matches the
stripped text.  The regex matches iff the text splits at its first `@` into
a non-empty local part over the local class and a domain whose last `.` is
followed by at least two ASCII letters, the part before that dot being
non-empty and inside the domain class. -/
def is_email (text : List Char) : Bool :=
  let t := stripEnds pySpace text
  let localPart := t.takeWhile (fun c => !(c == '@'))
  match t.dropWhile (fun c => !(c == '@')) with
  | [] => false
  | _ :: domainAll =>
      match domainAll.reverse.dropWhile (fun c => !(c == '.')) with
      | [] => false
      | _ :: domRev =>
          !localPart.isEmpty && localPart.all emailLocalChar &&
          !domRev.isEmpty && domRev.all emailDomainChar &&
          decide (2 ≤ (domainAll.reverse.takeWhile (fun c => !(c == '.'))).length) &&
          (domainAll.reverse.takeWhile (fun c => !(c == '.'))).all isAsciiAlpha

/-- `recent_messages` (lead_agent.py:311): the texts of the last six
history rows. -/
def recent_messages (chat_history : List Turn) : List (List Char) :=
  (lastN chat_history 6).map Turn.message

/-- `recent_context` (lead_agent.py:312): the lowercased space-join of the
recent messages. -/
def recent_context (chat_history : List Turn) : List Char :=
  toLowerStr (joinSpace (recent_messages chat_history))

/-- `_determine_conversation_stage_improved` (lead_agent.py:303-332): empty
history, then current-message email test, then the tag substring tests on
the lowercased recent context in source order, then the
`PerguntaFeedback:` marker test on the raw recent messages. -/
def determine_conversation_stage_improved (chat_history : List Turn)
    (current_message : List Char) : String :=
  if chat_history.isEmpty then "inicial"
  else if is_email current_message then "email_fornecido"
  else if isSub ("email:".toList) (recent_context chat_history) then "pos_email"
  else if isSub ("meeting_pref:aceita_reuniao".toList) (recent_context chat_history) then
    "pos_aceite_reuniao"
  else if isSub ("meeting_pref:".toList) (recent_context chat_history) then "pos_reuniao"
  else if isSub ("interesse:".toList) (recent_context chat_history) then "pos_interesse"
  else if isSub ("feedback:".toList) (recent_context chat_history) then "pos_feedback"
  else if (recent_messages chat_history).any
      (fun m => isSub ("PerguntaFeedback:".toList) m) then "pos_feedback_pergunta"
  else "conversa_livre"

/-! ## Theorems -/

theorem isEmpty_false_of_ne_nil {l : List α} (h : l ≠ []) : l.isEmpty = false := by
  cases l with
  | nil => exact absurd rfl h
  | cons a t => rfl

/-- For a valid 1-based ordinal, the snapshot lookup resolves to the
`ordinal - 1` element. -/
theorem pyGet_of_valid (slots : List SlotS) (ordinal : Nat)
    (h1 : 1 ≤ ordinal) (h2 : ordinal ≤ slots.length) :
    pyGet slots ((ordinal : Int) - 1) = some (slots.get ⟨ordinal - 1, by omega⟩) := by
  have h0 : (0 : Int) ≤ (ordinal : Int) - 1 := by omega
  have ht : ((ordinal : Int) - 1).toNat = ordinal - 1 := by omega
  have hlt : ordinal - 1 < slots.length := by omega
  simp only [pyGet, if_pos h0, ht]
  exact List.get?_eq_get hlt

/-- Shared shape lemma: with a non-empty snapshot and a valid ordinal the
handler reaches `_schedule_meeting`; the result is fully determined by the
booking outcome. -/
theorem handle_time_selection_valid (slots : List SlotS) (savedEmail : Option String)
    (ordinal : Nat) (phone userName : String) (bookResult : Option String)
    (h1 : 1 ≤ ordinal) (h2 : ordinal ≤ slots.length) :
    handle_time_selection (some slots) savedEmail ordinal phone userName bookResult =
      match bookResult with
      | some eid =>
          { reply := "Pronto! ✅\n\nAgendado para " ++
                (slots.get ⟨ordinal - 1, by omega⟩).datetimeStr ++
                ".\nTe enviei o convite por email. Até lá! 😊",
            bookingAttempted := true,
            savedEvent := some { phone := phone, googleEventId := eid,
                                 title := "Reunião - " ++ userName,
                                 startTime := (slots.get ⟨ordinal - 1, by omega⟩).start,
                                 endTime := (slots.get ⟨ordinal - 1, by omega⟩).start + 30,
                                 attendeeEmail := savedEmail },
            statusUpdate := some "SCHEDULED", ret := "Reunião agendada com sucesso" }
      | none =>
          { reply := "Deu um probleminha para agendar. Vou tentar de novo!",
            bookingAttempted := true, savedEvent := none, statusUpdate := none,
            ret := "Erro no agendamento" } := by
  have hne : slots ≠ [] := by
    intro h
    subst h
    simp at h2
    omega
  have hemp := isEmpty_false_of_ne_nil hne
  have hidx : ¬ ((slots.length : Int) ≤ (ordinal : Int) - 1) := by omega
  simp only [handle_time_selection, hemp, if_neg hidx, Bool.false_eq_true, if_false,
    pyGet_of_valid slots ordinal h1 h2, schedule_meeting]
  cases bookResult <;> rfl

/-- C6: for every persisted snapshot of `n` candidate slots and every selection
ordinal `k > n`, `_handle_time_selection` rejects the selection with the
corrective message "Ops, esse horário não está mais disponível.", returns
"Horário indisponível", does not invoke the booking capability, saves no
event, and performs no status update. -/
theorem C6_out_of_range_rejected (slots : List SlotS) (savedEmail : Option String)
    (ordinal : Nat) (phone userName : String) (bookResult : Option String)
    (hne : slots ≠ []) (hgt : slots.length < ordinal) :
    handle_time_selection (some slots) savedEmail ordinal phone userName bookResult =
      { reply := "Ops, esse horário não está mais disponível.", bookingAttempted := false,
        savedEvent := none, statusUpdate := none, ret := "Horário indisponível" } := by
  have hemp := isEmpty_false_of_ne_nil hne
  have hidx : (slots.length : Int) ≤ (ordinal : Int) - 1 := by omega
  simp only [handle_time_selection, hemp, Bool.false_eq_true, if_false, if_pos hidx]

/-- Witness for C6: ordinal 2 against a 1-slot snapshot is rejected. -/
theorem C6_witness :
    handle_time_selection (some [⟨600, "d"⟩]) none 2 "p" "u" (some "e") =
      { reply := "Ops, esse horário não está mais disponível.", bookingAttempted := false,
        savedEvent := none, statusUpdate := none, ret := "Horário indisponível" } :=
  C6_out_of_range_rejected [⟨600, "d"⟩] none 2 "p" "u" (some "e") (by decide) (by decide)

/-- C7: for a valid slot selection, when the external booking capability
returns no confirmation or throws (`bookResult = none`), the lead status is
left unchanged, no `CalendarEvent` is persisted, and the handler replies with
a recoverable retry message; moreover for any booking outcome the status is
set to SCHEDULED only when the capability confirmed success. -/
theorem C7_booking_failure_recoverable (slots : List SlotS) (savedEmail : Option String)
    (ordinal : Nat) (phone userName : String)
    (h1 : 1 ≤ ordinal) (h2 : ordinal ≤ slots.length) :
    (handle_time_selection (some slots) savedEmail ordinal phone userName none).statusUpdate
        = none ∧
    (handle_time_selection (some slots) savedEmail ordinal phone userName none).savedEvent
        = none ∧
    (handle_time_selection (some slots) savedEmail ordinal phone userName none).reply
        = "Deu um probleminha para agendar. Vou tentar de novo!" ∧
    (handle_time_selection (some slots) savedEmail ordinal phone userName none).ret
        = "Erro no agendamento" ∧
    (∀ bookResult : Option String,
      (handle_time_selection (some slots) savedEmail ordinal phone userName
          bookResult).statusUpdate = some "SCHEDULED" →
      bookResult.isSome = true) := by
  have hfail := handle_time_selection_valid slots savedEmail ordinal phone userName none h1 h2
  refine ⟨by rw [hfail], by rw [hfail], by rw [hfail], by rw [hfail], ?_⟩
  intro bookResult hs
  cases bookResult with
  | some eid => rfl
  | none =>
      rw [hfail] at hs
      exact absurd hs (by simp)

/-- Witness for C7: booking failure on a valid selection leaves everything
unchanged and asks the user to retry. -/
theorem C7_witness :
    (handle_time_selection (some [⟨600, "d"⟩]) none 1 "p" "u" none).statusUpdate = none ∧
    (handle_time_selection (some [⟨600, "d"⟩]) none 1 "p" "u" none).savedEvent = none ∧
    (handle_time_selection (some [⟨600, "d"⟩]) none 1 "p" "u" none).reply
        = "Deu um probleminha para agendar. Vou tentar de novo!" ∧
    (handle_time_selection (some [⟨600, "d"⟩]) none 1 "p" "u" none).ret
        = "Erro no agendamento" ∧
    (∀ bookResult : Option String,
      (handle_time_selection (some [⟨600, "d"⟩]) none 1 "p" "u" bookResult).statusUpdate
          = some "SCHEDULED" →
      bookResult.isSome = true) :=
  C7_booking_failure_recoverable [⟨600, "d"⟩] none 1 "p" "u" (by decide) (by decide)

/-- C9: the selection code `horario_0` against a non-empty snapshot is not
rejected as out of range: its index `0 - 1 = -1` resolves by Python negative
indexing to the last slot, the booking capability is invoked, and on success
the saved event carries the last slot's start time. -/
theorem C9_ordinal_zero_books_last_slot (slots : List SlotS) (savedEmail : Option String)
    (phone userName : String) (eid : String) (hne : slots ≠ []) :
    (handle_time_selection (some slots) savedEmail 0 phone userName (some eid)).bookingAttempted
        = true ∧
    (handle_time_selection (some slots) savedEmail 0 phone userName (some eid)).savedEvent =
      some { phone := phone, googleEventId := eid, title := "Reunião - " ++ userName,
             startTime := (slots.getLast hne).start,
             endTime := (slots.getLast hne).start + 30, attendeeEmail := savedEmail } ∧
    (handle_time_selection (some slots) savedEmail 0 phone userName (some eid)).ret
        = "Reunião agendada com sucesso" := by
  have hlen : 1 ≤ slots.length := List.length_pos.mpr hne
  have hemp := isEmpty_false_of_ne_nil hne
  have hidx : ¬ ((slots.length : Int) ≤ (0 : Nat) - 1) := by omega
  have hget : pyGet slots ((0 : Nat) - 1) = some (slots.getLast hne) := by
    have h0 : ¬ ((0 : Int) ≤ (0 : Nat) - 1) := by omega
    have h1 : (0 : Int) ≤ (slots.length : Int) + ((0 : Nat) - 1) := by omega
    have ht : ((slots.length : Int) + ((0 : Nat) - 1)).toNat = slots.length - 1 := by omega
    have hlt : slots.length - 1 < slots.length := by omega
    simp only [pyGet, if_neg h0, if_pos h1, ht]
    rw [List.get?_eq_get hlt, List.getLast_eq_get]
  simp only [handle_time_selection, hemp, Bool.false_eq_true, if_false, if_neg hidx,
    hget, schedule_meeting]
  exact ⟨trivial, trivial, trivial⟩

/-- Witness for C9: `horario_0` against a 2-slot snapshot books the second
(last) slot. -/
theorem C9_witness :
    (handle_time_selection (some [⟨600, "a"⟩, ⟨660, "b"⟩]) none 0 "p" "u"
        (some "e")).bookingAttempted = true ∧
    (handle_time_selection (some [⟨600, "a"⟩, ⟨660, "b"⟩]) none 0 "p" "u"
        (some "e")).savedEvent =
      some { phone := "p", googleEventId := "e", title := "Reunião - " ++ "u",
             startTime := ([⟨600, "a"⟩, ⟨660, "b"⟩] : List SlotS).getLast (by decide)
               |>.start,
             endTime := (([⟨600, "a"⟩, ⟨660, "b"⟩] : List SlotS).getLast (by decide)).start
               + 30, attendeeEmail := none } ∧
    (handle_time_selection (some [⟨600, "a"⟩, ⟨660, "b"⟩]) none 0 "p" "u"
        (some "e")).ret = "Reunião agendada com sucesso" :=
  C9_ordinal_zero_books_last_slot [⟨600, "a"⟩, ⟨660, "b"⟩] none "p" "u" "e" (by decide)

/-- C1 counterexample: re-submitting the already-booked ordinal 1 (snapshot
unchanged in the history, booking capability succeeding again) invokes the
booking capability a second time, reports success again, and the event store
ends up with two `CalendarEvent` rows for the same (lead, start-time) pair —
no "already scheduled" detection exists. -/
theorem C1_counterexample :
    (handle_time_selection (some [⟨600, "d"⟩]) none 1 "p" "u" (some "e2")).bookingAttempted
        = true ∧
    (handle_time_selection (some [⟨600, "d"⟩]) none 1 "p" "u" (some "e2")).ret
        = "Reunião agendada com sucesso" ∧
    (persistSaved
        (persistSaved [] (handle_time_selection (some [⟨600, "d"⟩]) none 1 "p" "u" (some "e1")))
        (handle_time_selection (some [⟨600, "d"⟩]) none 1 "p" "u" (some "e2"))).countP
      (fun ev => ev.phone == "p" && ev.startTime == 600) = 2 := by
  decide

/-- C1 amended: re-submitting the ordinal of an already-booked slot is not
detected: with the snapshot still in the history, the handler invokes the
booking capability again, advances the status to SCHEDULED again, and the
second confirmed booking persists a second `CalendarEvent` with the same
start time as the first. -/
theorem C1_amended_resubmission_books_again (slots : List SlotS) (savedEmail : Option String)
    (ordinal : Nat) (phone userName : String) (eid1 eid2 : String)
    (h1 : 1 ≤ ordinal) (h2 : ordinal ≤ slots.length) :
    (handle_time_selection (some slots) savedEmail ordinal phone userName
        (some eid2)).bookingAttempted = true ∧
    (handle_time_selection (some slots) savedEmail ordinal phone userName
        (some eid2)).statusUpdate = some "SCHEDULED" ∧
    (handle_time_selection (some slots) savedEmail ordinal phone userName
        (some eid2)).savedEvent.isSome = true ∧
    ((handle_time_selection (some slots) savedEmail ordinal phone userName
        (some eid1)).savedEvent.map CalEvent.startTime =
     (handle_time_selection (some slots) savedEmail ordinal phone userName
        (some eid2)).savedEvent.map CalEvent.startTime) := by
  rw [handle_time_selection_valid slots savedEmail ordinal phone userName (some eid1) h1 h2,
    handle_time_selection_valid slots savedEmail ordinal phone userName (some eid2) h1 h2]
  exact ⟨rfl, rfl, rfl, rfl⟩

/-- Witness for C1's amended statement at a concrete snapshot. -/
theorem C1_amended_witness :
    (handle_time_selection (some [⟨600, "d"⟩]) none 1 "p" "u" (some "e2")).bookingAttempted
        = true ∧
    (handle_time_selection (some [⟨600, "d"⟩]) none 1 "p" "u" (some "e2")).statusUpdate
        = some "SCHEDULED" ∧
    (handle_time_selection (some [⟨600, "d"⟩]) none 1 "p" "u" (some "e2")).savedEvent.isSome
        = true ∧
    ((handle_time_selection (some [⟨600, "d"⟩]) none 1 "p" "u" (some "e1")).savedEvent.map
        CalEvent.startTime =
     (handle_time_selection (some [⟨600, "d"⟩]) none 1 "p" "u" (some "e2")).savedEvent.map
        CalEvent.startTime) :=
  C1_amended_resubmission_books_again [⟨600, "d"⟩] none 1 "p" "u" "e1" "e2"
    (by decide) (by decide)

theorem mem_insertDesc {a m : ChatMsg} {l : List ChatMsg} :
    a ∈ insertDesc m l ↔ a = m ∨ a ∈ l := by
  induction l with
  | nil => simp [insertDesc]
  | cons x xs ih =>
      simp only [insertDesc]
      split
      · simp
      · simp only [List.mem_cons, ih]
        tauto

theorem pairwise_insertDesc (m : ChatMsg) (l : List ChatMsg)
    (h : l.Pairwise (fun a b => b.timestamp ≤ a.timestamp)) :
    (insertDesc m l).Pairwise (fun a b => b.timestamp ≤ a.timestamp) := by
  induction l with
  | nil => simp [insertDesc]
  | cons x xs ih =>
      rw [List.pairwise_cons] at h
      obtain ⟨hx, hxs⟩ := h
      simp only [insertDesc]
      split
      · rename_i hle
        refine List.pairwise_cons.mpr ⟨?_, List.pairwise_cons.mpr ⟨hx, hxs⟩⟩
        intro b hb
        rcases List.mem_cons.mp hb with hbx | hbxs
        · subst hbx; exact hle
        · exact le_trans (hx b hbxs) hle
      · rename_i hgt
        refine List.pairwise_cons.mpr ⟨?_, ih hxs⟩
        intro b hb
        rcases mem_insertDesc.mp hb with hbm | hbxs
        · subst hbm; omega
        · exact hx b hbxs

theorem pairwise_orderByTimestampDesc (l : List ChatMsg) :
    (orderByTimestampDesc l).Pairwise (fun a b => b.timestamp ≤ a.timestamp) := by
  induction l with
  | nil => simp [orderByTimestampDesc]
  | cons x xs ih => exact pairwise_insertDesc x (orderByTimestampDesc xs) ih

/-- C10: `get_chat_history` returns the lead's turns ordered by timestamp
descending (most recent first); consequently a suffix slice
`chat_history[-6:]` — the stage classifier's window — contains the oldest
turns of the fetched batch: every turn in the suffix is at most as recent as
every turn in the discarded front part. -/
theorem C10_history_descending (msgs : List ChatMsg) (limit : Nat) :
    (get_chat_history msgs limit).Pairwise (fun a b => b.timestamp ≤ a.timestamp) ∧
    (∀ a ∈ (get_chat_history msgs limit).take ((get_chat_history msgs limit).length - 6),
     ∀ b ∈ lastN (get_chat_history msgs limit) 6, b.timestamp ≤ a.timestamp) := by
  have hp : (get_chat_history msgs limit).Pairwise (fun a b => b.timestamp ≤ a.timestamp) :=
    (pairwise_orderByTimestampDesc msgs).sublist (List.take_sublist _ _)
  refine ⟨hp, ?_⟩
  intro a ha b hb
  have hsplit := List.take_append_drop
    ((get_chat_history msgs limit).length - 6) (get_chat_history msgs limit)
  have hp2 : ((get_chat_history msgs limit).take ((get_chat_history msgs limit).length - 6)
      ++ (get_chat_history msgs limit).drop ((get_chat_history msgs limit).length - 6)).Pairwise
      (fun a b => b.timestamp ≤ a.timestamp) := by rw [hsplit]; exact hp
  exact (List.pairwise_append.mp hp2).2.2 a ha b hb

/-- Witness for C10 on an 8-row history: the batch front holds the most
recent turn and the `[-6:]` window holds the oldest one. -/
theorem C10_witness :
    (⟨1, "user", "m1"⟩ : ChatMsg).timestamp ≤ (⟨8, "user", "m8"⟩ : ChatMsg).timestamp :=
  (C10_history_descending
      [⟨3, "user", "m3"⟩, ⟨1, "user", "m1"⟩, ⟨8, "user", "m8"⟩, ⟨5, "user", "m5"⟩,
       ⟨2, "user", "m2"⟩, ⟨7, "user", "m7"⟩, ⟨4, "user", "m4"⟩, ⟨6, "user", "m6"⟩] 10).2
    ⟨8, "user", "m8"⟩ (by decide) ⟨1, "user", "m1"⟩ (by decide)

/-- The fuel argument is irrelevant once it exceeds the iteration count, so
`genSlots` computes the full run of the source's `while` loop. -/
theorem genSlotsFuel_congr (events : List Interval) (stopT duration : Nat) :
    ∀ fuel₁ fuel₂ cur, stopT < cur + 30 * fuel₁ → stopT < cur + 30 * fuel₂ →
      genSlotsFuel events stopT duration fuel₁ cur
        = genSlotsFuel events stopT duration fuel₂ cur := by
  intro fuel₁
  induction fuel₁ with
  | zero =>
      intro fuel₂ cur h₁ h₂
      cases fuel₂ with
      | zero => rfl
      | succ g =>
          simp only [genSlotsFuel]
          rw [if_neg (by omega)]
  | succ f ih =>
      intro fuel₂ cur h₁ h₂
      cases fuel₂ with
      | zero =>
          simp only [genSlotsFuel]
          rw [if_neg (by omega)]
      | succ g =>
          simp only [genSlotsFuel]
          by_cases hc : cur + duration ≤ stopT
          · rw [if_pos hc, if_pos hc, ih g (cur + 30) (by omega) (by omega)]
          · rw [if_neg hc, if_neg hc]

/-- Every slot the day loop emits starts at or after the cursor, on the
30-minute grid, is exactly `duration` long, ends by `stopT`, and passes the
overlap test against every fetched event. -/
theorem mem_genSlotsFuel {events : List Interval} {stopT duration : Nat} {s : Interval} :
    ∀ fuel cur, s ∈ genSlotsFuel events stopT duration fuel cur →
      cur ≤ s.start ∧ s.stop = s.start + duration ∧ s.start + duration ≤ stopT ∧
      (s.start - cur) % 30 = 0 ∧
      ∀ e ∈ events, ¬(s.start < e.stop ∧ s.start + duration > e.start) := by
  intro fuel
  induction fuel with
  | zero => intro cur h; simp [genSlotsFuel] at h
  | succ f ih =>
      intro cur h
      simp only [genSlotsFuel] at h
      by_cases hc : cur + duration ≤ stopT
      · rw [if_pos hc] at h
        rcases List.mem_append.mp h with hl | hr
        · by_cases hfree : events.all
              (fun e => !(decide (cur < e.stop) && decide (cur + duration > e.start))) = true
          · rw [if_pos hfree] at hl
            rcases List.mem_singleton.mp hl with rfl
            refine ⟨le_refl _, rfl, hc, by simp, ?_⟩
            intro e he
            have := List.all_eq_true.mp hfree e he
            simp only [Bool.not_eq_true', Bool.and_eq_false_iff, decide_eq_false_iff_not] at this
            tauto
          · rw [if_neg hfree] at hl
            simp at hl
        · have := ih (cur + 30) hr
          exact ⟨by omega, this.2.1, this.2.2.1, by omega, this.2.2.2.2⟩
      · rw [if_neg hc] at h
        simp at h

/-- The slots of one day's loop run are strictly increasing in start time. -/
theorem pairwise_genSlotsFuel (events : List Interval) (stopT duration : Nat) :
    ∀ fuel cur, (genSlotsFuel events stopT duration fuel cur).Pairwise
      (fun a b => a.start < b.start) := by
  intro fuel
  induction fuel with
  | zero => intro cur; simp [genSlotsFuel]
  | succ f ih =>
      intro cur
      simp only [genSlotsFuel]
      by_cases hc : cur + duration ≤ stopT
      · rw [if_pos hc]
        refine List.pairwise_append.mpr ⟨?_, ih (cur + 30), ?_⟩
        · split <;> simp
        · intro a ha b hb
          have hb' := (mem_genSlotsFuel f (cur + 30) hb).1
          have ha' : a = (⟨cur, cur + duration⟩ : Interval) := by
            revert ha
            split
            · intro h; exact List.mem_singleton.mp h
            · intro h; simp at h
          subst ha'
          show cur < b.start
          omega
      · rw [if_neg hc]
        exact List.Pairwise.nil

/-- Shape of every slot one day contributes: business weekday, within
business hours, on the 30-minute grid, exactly `duration` long, and passing
the overlap test against every event fetched for that day. -/
theorem mem_dayBlock {duration : Nat} {busy : List Interval} {n : Nat} {s : Interval}
    (h : s ∈ dayBlock duration busy n) :
    n % 7 ∈ businessWeekdays ∧
    n * 1440 + 540 ≤ s.start ∧ s.stop = s.start + duration ∧
    s.start + duration ≤ n * 1440 + 1080 ∧
    (s.start - (n * 1440 + 540)) % 30 = 0 ∧
    ∀ e ∈ eventsForDay busy n, ¬(s.start < e.stop ∧ s.start + duration > e.start) := by
  unfold dayBlock at h
  split at h
  · rename_i hwd
    unfold genSlots at h
    obtain ⟨h1, h2, h3, h4, h5⟩ := mem_genSlotsFuel _ _ h
    exact ⟨hwd, h1, h2, h3, h4, h5⟩
  · simp at h

/-- C3: no slot returned by the Availability Engine overlaps any busy
interval supplied for the queried days: for every returned slot `s` and every
busy interval `b`, `¬(s.start < b.end ∧ s.end > b.start)`. -/
theorem C3_slots_avoid_busy (today daysAhead duration : Nat) (busy : List Interval)
    (s b : Interval) (hs : s ∈ get_available_slots today daysAhead duration busy)
    (hb : b ∈ busy) : ¬(s.start < b.stop ∧ s.stop > b.start) := by
  intro hover
  have hs' : s ∈ (List.range daysAhead).flatMap
      (fun off => dayBlock duration busy (today + off + 1)) :=
    List.mem_of_mem_take hs
  obtain ⟨off, hoff, hsd⟩ := List.mem_flatMap.mp hs'
  obtain ⟨hwd, h1, h2, h3, h4, h5⟩ := mem_dayBlock hsd
  have hbe : b ∈ eventsForDay busy (today + off + 1) := by
    unfold eventsForDay
    refine List.mem_filter.mpr ⟨hb, ?_⟩
    simp only [Bool.and_eq_true, decide_eq_true_eq]
    obtain ⟨ho1, ho2⟩ := hover
    constructor <;> omega
  exact h5 b hbe ⟨hover.1, by omega⟩

/-- Slots of strictly later business days start strictly later than all
slots of earlier days, so the day loop emits a strictly increasing list. -/
theorem pairwise_flatMap_blocks (duration : Nat) (busy : List Interval) (today : Nat) :
    ∀ offs : List Nat, offs.Pairwise (· < ·) →
      (offs.flatMap (fun off => dayBlock duration busy (today + off + 1))).Pairwise
        (fun a b => a.start < b.start) := by
  intro offs
  induction offs with
  | nil => intro _; simp
  | cons x xs ih =>
      intro hp
      rw [List.pairwise_cons] at hp
      simp only [List.flatMap_cons]
      refine List.pairwise_append.mpr ⟨?_, ih hp.2, ?_⟩
      · unfold dayBlock
        split
        · exact pairwise_genSlotsFuel _ _ _ _ _
        · exact List.Pairwise.nil
      · intro a ha b hb
        obtain ⟨y, hy, hbd⟩ := List.mem_flatMap.mp hb
        have hxy : x < y := hp.1 y hy
        obtain ⟨_, ha1, _, ha3, _, _⟩ := mem_dayBlock ha
        obtain ⟨_, hb1, _, _, _, _⟩ := mem_dayBlock hbd
        omega

/-- C4: every returned slot lies on a business weekday (its day being
`start / 1440`), starts on the 30-minute grid at or after business open, is
exactly `duration` long, and ends at or before business close; the returned
list is ordered earliest first (strictly increasing starts) and its length
is capped at 10. -/
theorem C4_slot_shape (today daysAhead duration : Nat) (busy : List Interval) :
    (∀ s ∈ get_available_slots today daysAhead duration busy,
      ((s.start / 1440) % 7 ∈ businessWeekdays ∧
       (s.start / 1440) * 1440 + 540 ≤ s.start ∧
       (s.start - ((s.start / 1440) * 1440 + 540)) % 30 = 0 ∧
       s.stop = s.start + duration ∧
       s.stop ≤ (s.start / 1440) * 1440 + 1080)) ∧
    (get_available_slots today daysAhead duration busy).Pairwise
      (fun a b => a.start < b.start) ∧
    (get_available_slots today daysAhead duration busy).length ≤ 10 := by
  refine ⟨?_, ?_, ?_⟩
  · intro s hs
    have hs' : s ∈ (List.range daysAhead).flatMap
        (fun off => dayBlock duration busy (today + off + 1)) :=
      List.mem_of_mem_take hs
    obtain ⟨off, hoff, hsd⟩ := List.mem_flatMap.mp hs'
    obtain ⟨hwd, h1, h2, h3, h4, h5⟩ := mem_dayBlock hsd
    have hn : s.start / 1440 = today + off + 1 := by omega
    rw [hn]
    exact ⟨hwd, h1, by omega, h2, by omega⟩
  · exact (pairwise_flatMap_blocks duration busy today (List.range daysAhead)
      (List.pairwise_lt_range _)).sublist (List.take_sublist _ _)
  · exact List.length_take_le _ _

/-- Witness for C3: with 09:00–09:30 of a Monday busy, the engine's first
slot is 09:30–10:00 and does not overlap the busy interval. -/
theorem C3_witness :
    (⟨10650, 10680⟩ : Interval) ∈ get_available_slots 6 1 30 [⟨10620, 10650⟩] ∧
    (⟨10620, 10650⟩ : Interval) ∈ ([⟨10620, 10650⟩] : List Interval) ∧
    ¬((⟨10650, 10680⟩ : Interval).start < (⟨10620, 10650⟩ : Interval).stop ∧
      (⟨10650, 10680⟩ : Interval).stop > (⟨10620, 10650⟩ : Interval).start) :=
  ⟨by decide, by decide,
   C3_slots_avoid_busy 6 1 30 [⟨10620, 10650⟩] ⟨10650, 10680⟩ ⟨10620, 10650⟩
     (by decide) (by decide)⟩

/-- Witness for C4 at the slot 09:30–10:00 of day 7 (a Monday). -/
theorem C4_witness :
    ((⟨10650, 10680⟩ : Interval).start / 1440) % 7 ∈ businessWeekdays ∧
    ((⟨10650, 10680⟩ : Interval).start / 1440) * 1440 + 540
        ≤ (⟨10650, 10680⟩ : Interval).start ∧
    ((⟨10650, 10680⟩ : Interval).start
        - (((⟨10650, 10680⟩ : Interval).start / 1440) * 1440 + 540)) % 30 = 0 ∧
    (⟨10650, 10680⟩ : Interval).stop = (⟨10650, 10680⟩ : Interval).start + 30 ∧
    (⟨10650, 10680⟩ : Interval).stop
        ≤ ((⟨10650, 10680⟩ : Interval).start / 1440) * 1440 + 1080 :=
  (C4_slot_shape 6 1 30 [⟨10620, 10650⟩]).1 ⟨10650, 10680⟩ (by decide)

theorem isPrefixOf_exists : ∀ (p l : List Char), p.isPrefixOf l = true ↔ ∃ t, l = p ++ t := by
  intro p
  induction p with
  | nil =>
      intro l
      constructor
      · intro _; exact ⟨l, rfl⟩
      · intro _; cases l <;> rfl
  | cons c cs ih =>
      intro l
      cases l with
      | nil =>
          constructor
          · intro h; simp [List.isPrefixOf] at h
          · rintro ⟨t, ht⟩; simp at ht
      | cons d ds =>
          simp only [List.isPrefixOf, Bool.and_eq_true, beq_iff_eq, ih ds, List.cons_append]
          constructor
          · rintro ⟨rfl, t, rfl⟩; exact ⟨t, rfl⟩
          · rintro ⟨t, ht⟩
            injection ht with h1 h2
            exact ⟨h1.symm, t, h2⟩

/-- `isSub p l` holds exactly when `p` occurs contiguously inside `l`. -/
theorem isSub_iff (p l : List Char) : isSub p l = true ↔ ∃ u v, l = u ++ (p ++ v) := by
  unfold isSub
  rw [List.any_eq_true]
  constructor
  · rintro ⟨t, ht, hp⟩
    rw [List.mem_tails] at ht
    obtain ⟨u, hu⟩ := ht
    obtain ⟨v, hv⟩ := (isPrefixOf_exists p t).mp hp
    exact ⟨u, v, by rw [← hu, hv]⟩
  · rintro ⟨u, v, rfl⟩
    refine ⟨p ++ v, ?_, ?_⟩
    · rw [List.mem_tails]; exact ⟨u, rfl⟩
    · exact (isPrefixOf_exists p (p ++ v)).mpr ⟨v, rfl⟩

/-- Any member of a list occurs contiguously inside its space-join. -/
theorem joinSpace_decomp {m : List Char} :
    ∀ {ms : List (List Char)}, m ∈ ms → ∃ u v, joinSpace ms = u ++ (m ++ v) := by
  intro ms
  induction ms with
  | nil => intro h; simp at h
  | cons x xs ih =>
      intro h
      rcases List.mem_cons.mp h with rfl | hxs
      · cases xs with
        | nil => exact ⟨[], [], by simp [joinSpace]⟩
        | cons y ys => exact ⟨[], ' ' :: joinSpace (y :: ys), by simp [joinSpace]⟩
      · obtain ⟨u, v, huv⟩ := ih hxs
        cases xs with
        | nil => simp at hxs
        | cons y ys =>
            refine ⟨x ++ [' '] ++ u, v, ?_⟩
            show x ++ (' ' :: joinSpace (y :: ys)) = x ++ [' '] ++ u ++ (m ++ v)
            rw [huv]
            simp [List.append_assoc]

theorem toLowerStr_append (a b : List Char) :
    toLowerStr (a ++ b) = toLowerStr a ++ toLowerStr b := by
  unfold toLowerStr
  exact List.map_append _ _ _

/-- C2 counterexample: the (normalized) table phrase "gostei" is matched by
the entry ("gostei" → feedback_bom) exactly and by the entry
("gostei muito" → feedback_positivo) by substring containment — two table
entries with different intents both match it, refuting the claimed
ambiguity-freedom of the curated table. -/
theorem C2_counterexample :
    ("gostei", "feedback_bom") ∈ BTN_MAP ∧
    ("gostei muito", "feedback_positivo") ∈ BTN_MAP ∧
    entryMatches (normalizeC ("gostei".toList)) ("gostei", "feedback_bom") = true ∧
    entryMatches (normalizeC ("gostei".toList)) ("gostei muito", "feedback_positivo") = true ∧
    ("feedback_bom" : String) ≠ "feedback_positivo" := by
  decide

/-- C2 amended: entries with different intents can match the same table
phrase (see the counterexample), but exact dict lookup precedes substring
matching, so every table phrase still resolves through `map_label_to_id` to
its own declared intent. -/
theorem C2_amended_keys_resolve :
    BTN_MAP.all (fun kv => map_label_to_id kv.1.toList == some kv.2) = true := by
  decide

/-- C5 (code bug): on a history holding only the feedback-elicitation marker
turn — so no later user turn carries any tag — with a non-email current
message, the classifier returns "pos_feedback" rather than the claimed
"pos_feedback_pergunta": the lowercased marker "perguntafeedback: enviada"
itself contains the substring "feedback:" and trips the rule-4 feedback-tag
test first.  In fact no input at all makes the classifier return
"pos_feedback_pergunta". -/
theorem C5_marker_rule_shadowed :
    determine_conversation_stage_improved
      [⟨"assistant", ("PerguntaFeedback: enviada").toList⟩] ("oi".toList)
      = "pos_feedback" ∧
    ∀ (chat_history : List Turn) (current_message : List Char),
      (determine_conversation_stage_improved chat_history current_message
        == "pos_feedback_pergunta") = false := by
  refine ⟨by decide, ?_⟩
  intro hist msg
  unfold determine_conversation_stage_improved
  by_cases h1 : hist.isEmpty = true
  · rw [if_pos h1]; rfl
  rw [if_neg h1]
  by_cases h2 : is_email msg = true
  · rw [if_pos h2]; rfl
  rw [if_neg h2]
  by_cases h3 : isSub ("email:".toList) (recent_context hist) = true
  · rw [if_pos h3]; rfl
  rw [if_neg h3]
  by_cases h4 : isSub ("meeting_pref:aceita_reuniao".toList) (recent_context hist) = true
  · rw [if_pos h4]; rfl
  rw [if_neg h4]
  by_cases h5 : isSub ("meeting_pref:".toList) (recent_context hist) = true
  · rw [if_pos h5]; rfl
  rw [if_neg h5]
  by_cases h6 : isSub ("interesse:".toList) (recent_context hist) = true
  · rw [if_pos h6]; rfl
  rw [if_neg h6]
  by_cases h7 : isSub ("feedback:".toList) (recent_context hist) = true
  · rw [if_pos h7]; rfl
  rw [if_neg h7]
  by_cases h8 : (recent_messages hist).any
      (fun m => isSub ("PerguntaFeedback:".toList) m) = true
  · exfalso
    apply h7
    obtain ⟨m, hm, hsub⟩ := List.any_eq_true.mp h8
    obtain ⟨u, v, hmv⟩ := (isSub_iff _ _).mp hsub
    obtain ⟨w1, w2, hj⟩ := joinSpace_decomp hm
    have hfb : isSub ("feedback:".toList)
        (toLowerStr ("PerguntaFeedback:".toList)) = true := by decide
    obtain ⟨u2, v2, hl⟩ := (isSub_iff _ _).mp hfb
    rw [isSub_iff]
    refine ⟨toLowerStr w1 ++ (toLowerStr u ++ u2),
            v2 ++ (toLowerStr v ++ toLowerStr w2), ?_⟩
    unfold recent_context
    rw [hj, toLowerStr_append, hmv, toLowerStr_append, toLowerStr_append,
      toLowerStr_append, hl]
    simp [List.append_assoc]
  · rw [if_neg h8]; rfl

theorem dropWhile_head_not_sp {sp : Char → Bool} :
    ∀ (l : List Char) (c : Char), (l.dropWhile sp).head? = some c → sp c = false := by
  intro l
  induction l with
  | nil => intro c h; simp [List.dropWhile] at h
  | cons x xs ih =>
      intro c h
      rw [List.dropWhile_cons] at h
      by_cases hx : sp x = true
      · rw [if_pos hx] at h
        exact ih c h
      · rw [if_neg hx] at h
        simp only [List.head?_cons, Option.some.injEq] at h
        subst h
        simpa using hx

theorem headOfAppend {u t : List Char} {c : Char} (h : u.head? = some c) :
    (u ++ t).head? = some c := by
  cases u with
  | nil => simp at h
  | cons a as => simpa using h

/-- The stripped string starts with a non-whitespace character. -/
theorem stripEnds_head {sp : Char → Bool} {l : List Char} {c : Char}
    (h : (stripEnds sp l).head? = some c) : sp c = false := by
  unfold stripEnds at h
  obtain ⟨t, ht⟩ := List.rdropWhile_prefix sp (l.dropWhile sp)
  exact dropWhile_head_not_sp l c (ht ▸ headOfAppend h)

theorem dropWhile_eq_self_of_head {sp : Char → Bool} {l : List Char}
    (h : ∀ c, l.head? = some c → sp c = false) : l.dropWhile sp = l := by
  cases l with
  | nil => rfl
  | cons x xs =>
      rw [List.dropWhile_cons, if_neg]
      simp [h x rfl]

/-- Python `str.strip()` is idempotent. -/
theorem stripEnds_idem {sp : Char → Bool} (l : List Char) :
    stripEnds sp (stripEnds sp l) = stripEnds sp l := by
  have h1 : (stripEnds sp l).dropWhile sp = stripEnds sp l :=
    dropWhile_eq_self_of_head (fun c hc => stripEnds_head hc)
  show ((stripEnds sp l).dropWhile sp).rdropWhile sp = stripEnds sp l
  rw [h1]
  show ((l.dropWhile sp).rdropWhile sp).rdropWhile sp = stripEnds sp l
  exact List.rdropWhile_idempotent sp (l.dropWhile sp)

theorem stripEnds_subset {sp : Char → Bool} {l : List Char} {c : Char}
    (h : c ∈ stripEnds sp l) : c ∈ l := by
  unfold stripEnds at h
  have h2 : c ∈ l.dropWhile sp :=
    ( List.rdropWhile_prefix sp (l.dropWhile sp)).sublist.subset h
  exact (List.dropWhile_suffix sp).sublist.subset h2

theorem stripEnds_chain {R : Char → Char → Prop} {sp : Char → Bool} {l : List Char}
    (h : l.Chain' R) : (stripEnds sp l).Chain' R := by
  unfold stripEnds
  have h2 : (l.dropWhile sp).Chain' R := h.suffix (List.dropWhile_suffix sp)
  exact List.Chain'.prefix h2 ( List.rdropWhile_prefix sp (l.dropWhile sp))

/-- Every character the whitespace collapse emits is either the space it
substitutes for a run or a non-whitespace character of the input. -/
theorem collapseWSAux_mem {sp : Char → Bool} {c : Char} :
    ∀ (l : List Char) (b : Bool),
      c ∈ collapseWSAux sp b l → c = ' ' ∨ (c ∈ l ∧ sp c = false) := by
  intro l
  induction l with
  | nil => intro b h; simp [collapseWSAux] at h
  | cons x xs ih =>
      intro b h
      by_cases hx : sp x = true
      · cases b with
        | true =>
            simp only [collapseWSAux, hx, if_true, if_pos] at h
            rcases ih true h with h1 | h2
            · exact Or.inl h1
            · exact Or.inr ⟨List.mem_cons_of_mem _ h2.1, h2.2⟩
        | false =>
            simp only [collapseWSAux, hx, if_true] at h
            rw [if_neg (by simp)] at h
            rcases List.mem_cons.mp h with h1 | h2
            · exact Or.inl h1
            · rcases ih true h2 with h3 | h4
              · exact Or.inl h3
              · exact Or.inr ⟨List.mem_cons_of_mem _ h4.1, h4.2⟩
      · simp only [collapseWSAux, hx] at h
        rw [if_neg (by simp)] at h
        rcases List.mem_cons.mp h with h1 | h2
        · subst h1
          exact Or.inr ⟨List.mem_cons_self _ _, by simpa using hx⟩
        · rcases ih false h2 with h3 | h4
          · exact Or.inl h3
          · exact Or.inr ⟨List.mem_cons_of_mem _ h4.1, h4.2⟩

/-- While inside a whitespace run the collapse scanner next emits a
non-whitespace character (if anything). -/
theorem collapseWSAux_head_true {sp : Char → Bool} :
    ∀ (l : List Char) (y : Char),
      (collapseWSAux sp true l).head? = some y → sp y = false := by
  intro l
  induction l with
  | nil => intro y h; simp [collapseWSAux] at h
  | cons x xs ih =>
      intro y h
      by_cases hx : sp x = true
      · simp only [collapseWSAux, hx, if_true, if_pos] at h
        exact ih y h
      · simp only [collapseWSAux, hx] at h
        rw [if_neg (by simp)] at h
        simp only [List.head?_cons, Option.some.injEq] at h
        subst h
        simpa using hx

/-- The collapse output never has two adjacent whitespace characters. -/
theorem collapseWSAux_chain {sp : Char → Bool} :
    ∀ (l : List Char) (b : Bool),
      (collapseWSAux sp b l).Chain' (fun a c => sp a = false ∨ sp c = false) := by
  intro l
  induction l with
  | nil => intro b; simp [collapseWSAux]
  | cons x xs ih =>
      intro b
      by_cases hx : sp x = true
      · cases b with
        | true =>
            simp only [collapseWSAux, hx, if_true, if_pos]
            exact ih true
        | false =>
            simp only [collapseWSAux, hx, if_true]
            rw [if_neg (by simp)]
            refine List.chain'_cons'.mpr ⟨?_, ih true⟩
            intro y hy
            exact Or.inr (collapseWSAux_head_true xs y hy)
      · simp only [collapseWSAux, hx]
        rw [if_neg (by simp)]
        refine List.chain'_cons'.mpr ⟨?_, ih false⟩
        intro y _
        exact Or.inl (by simpa using hx)

/-- On a string whose whitespace characters are all plain spaces and never
adjacent, the collapse is the identity (second conjunct: also when the
scanner starts inside a run, provided the head is non-whitespace). -/
theorem collapseWSAux_fix {sp : Char → Bool} :
    ∀ l : List Char, (∀ c ∈ l, sp c = true → c = ' ') →
      l.Chain' (fun a c => sp a = false ∨ sp c = false) →
      (collapseWSAux sp false l = l ∧
        ((∀ y, l.head? = some y → sp y = false) → collapseWSAux sp true l = l)) := by
  intro l
  induction l with
  | nil => intro _ _; exact ⟨rfl, fun _ => rfl⟩
  | cons x xs ih =>
      intro hsp hch
      have hch' := List.chain'_cons'.mp hch
      have ihx := ih (fun c hc h => hsp c (List.mem_cons_of_mem _ hc) h) hch'.2
      by_cases hx : sp x = true
      · have hx' : x = ' ' := hsp x (List.mem_cons_self _ _) hx
        constructor
        · simp only [collapseWSAux, hx, if_true]
          rw [if_neg (by simp)]
          have hxs : collapseWSAux sp true xs = xs := by
            apply ihx.2
            intro y hy
            rcases hch'.1 y hy with h | h
            · rw [hx] at h; cases h
            · exact h
          rw [hxs, hx']
        · intro hhead
          have := hhead x rfl
          rw [hx] at this
          cases this
      · constructor
        · simp only [collapseWSAux, hx]
          rw [if_neg (by simp)]
          rw [ihx.1]
        · intro _
          simp only [collapseWSAux, hx]
          rw [if_neg (by simp)]
          rw [ihx.1]

/-- Unfolding equation of `_normalize`. -/
theorem normalize_def (U : UnicodeModel) (s : List Char) :
    normalize U s = stripEnds U.spaceStrip (collapseWS U.spaceRe
      (List.filter (keptChar U.spaceRe)
        (List.filter (fun c => !(U.combining c))
          (U.nfkd (U.lower (strip_emoji U s)))))) := rfl

/-- Structure of the normalizer's output: every character is a space or a
kept non-whitespace character, no two whitespace characters are adjacent,
and the output is already stripped. -/
theorem normalize_output_shape (U : UnicodeModel) (s : List Char) :
    (∀ c ∈ normalize U s, c = ' ' ∨
      ((isAsciiLowerAlpha c || isAsciiDigit c || isKeptSymbol c) = true ∧
        U.spaceRe c = false)) ∧
    (normalize U s).Chain' (fun a c => U.spaceRe a = false ∨ U.spaceRe c = false) ∧
    stripEnds U.spaceStrip (normalize U s) = normalize U s := by
  refine ⟨?_, ?_, ?_⟩
  · intro c hc
    rw [normalize_def] at hc
    have h1 := stripEnds_subset hc
    rcases collapseWSAux_mem _ false h1 with h2 | h3
    · exact Or.inl h2
    · have h4 := (List.mem_filter.mp h3.1).2
      unfold keptChar at h4
      refine Or.inr ⟨?_, h3.2⟩
      simp only [Bool.or_eq_true] at h4 ⊢
      rcases h4 with ((h | h) | h) | h
      · exact Or.inl (Or.inl h)
      · exact Or.inl (Or.inr h)
      · rw [h3.2] at h; cases h
      · exact Or.inr h
  · rw [normalize_def]
    exact stripEnds_chain (collapseWSAux_chain _ false)
  · rw [normalize_def]
    exact stripEnds_idem _

/-- C8: `_normalize` is idempotent — for every input string and every
instantiation of the Unicode primitives satisfying the real Unicode facts on
the output alphabet, `normalize (normalize x) = normalize x`. -/
theorem C8_normalize_idempotent (U : UnicodeModel) (hU : GoodUnicode U) (s : List Char) :
    normalize U (normalize U s) = normalize U s := by
  obtain ⟨hcat, hlow, hnfkd, hcomb, hspre⟩ := hU
  obtain ⟨hmem, hchain, hstrip⟩ := normalize_output_shape U s
  have hsafe : ∀ c ∈ normalize U s, safeChar c = true := by
    intro c hc
    rcases hmem c hc with rfl | ⟨h1, _⟩
    · decide
    · unfold safeChar
      simp only [Bool.or_eq_true] at h1 ⊢
      rcases h1 with (h | h) | h
      · exact Or.inl (Or.inl (Or.inl h))
      · exact Or.inl (Or.inl (Or.inr h))
      · exact Or.inl (Or.inr h)
  rw [normalize_def U (normalize U s)]
  have e1 : strip_emoji U (normalize U s) = normalize U s := by
    apply List.filter_eq_self.mpr
    intro a ha
    simp [hcat a (hsafe a ha)]
  rw [e1, hlow _ hsafe, hnfkd _ hsafe]
  have e2 : List.filter (fun c => !(U.combining c)) (normalize U s) = normalize U s := by
    apply List.filter_eq_self.mpr
    intro a ha
    simp [hcomb a (hsafe a ha)]
  rw [e2]
  have e3 : List.filter (keptChar U.spaceRe) (normalize U s) = normalize U s := by
    apply List.filter_eq_self.mpr
    intro a ha
    rcases hmem a ha with rfl | ⟨h1, _⟩
    · simp [keptChar, hspre]
    · unfold keptChar
      simp only [Bool.or_eq_true] at h1 ⊢
      rcases h1 with (h | h) | h
      · exact Or.inl (Or.inl (Or.inl h))
      · exact Or.inl (Or.inl (Or.inr h))
      · exact Or.inr h
  rw [e3]
  have e4 : collapseWS U.spaceRe (normalize U s) = normalize U s := by
    unfold collapseWS
    refine (collapseWSAux_fix (normalize U s) ?_ hchain).1
    intro c hc hspc
    rcases hmem c hc with rfl | ⟨_, h2⟩
    · rfl
    · rw [h2] at hspc; cases hspc
  rw [e4, hstrip]

/-- Witness for C8: a concrete Unicode instance satisfying the assumed
Unicode facts, and idempotence evaluated on a concrete label. -/
theorem C8_witness :
    GoodUnicode idUnicode ∧
    normalize idUnicode
        (normalize idUnicode (("  Adorei   o seminario -  10. ").toList))
      = normalize idUnicode (("  Adorei   o seminario -  10. ").toList) := by
  have hg : GoodUnicode idUnicode :=
    ⟨fun c _ => rfl, fun l _ => rfl, fun l _ => rfl, fun c _ => rfl, by decide⟩
  exact ⟨hg, C8_normalize_idempotent idUnicode hg _⟩

end SeminarAgent
